import Mathlib

/-!
Shallow embedding of `src/CLibMoonlight/LogHelpers.c` (with its header
`LogHelpers.h`), the FormattedCallbackBridge shim:

```c
void logMessageCallback(const char* format, ...) {
    char buffer[2048];
    va_list args;
    va_start(args, format);
    vsnprintf(buffer, sizeof(buffer), format, args);
    va_end(args);
    swiftLogHandler(buffer);
}

void* getLogMessageCallbackPointer(void) {
    return (void*)logMessageCallback;
}
```

Modelling choices:
* C strings are `List Char`; the terminator is the character `nul` and is
  never part of the visible text.
* The variadic argument pack is a `List CVal` (`%d` integers, `%s` strings).
* The standard `vsnprintf` rendering relation is embedded for the
  conversions exercised by the spec: `%d`, `%s`, `%%` and literal
  characters.  A specifier/argument mismatch, or a conversion outside this
  subset, yields `none`, standing for the out-of-contract undefined
  behavior the spec documents.
* The 2048-byte stack buffer is `Buffer := Fin 2048 → Char`.  A call takes
  the buffer's arbitrary initial (junk) contents as an explicit argument
  `b0`; `vsnprintf` writes the truncated rendering plus a terminator
  (`writeBuf`), and `swiftLogHandler` receives the C-string contents read
  back from the buffer up to the first terminator (`readCStr`).
* `swiftLogHandler` is link-time injected, so it is a parameter
  `handler : List Char → σ → σ` acting on an abstract outside-world state
  `σ`; the bridge itself owns no state (the C file has no globals).
* Each call also produces an event trace, in execution order, recording
  the rendering step, the handler invocation, and the return.
-/

/-- The C string terminator, byte 0. -/
def nul : Char := Char.ofNat 0

/-- The 2048-byte stack buffer `char buffer[2048]` of `logMessageCallback`:
one `Char` per byte position, capacity fixed at 2048 by the type. -/
def Buffer : Type := Fin 2048 → Char

/-- A variadic argument as passed to `logMessageCallback`: a C `int`
(for `%d`) or a C string (for `%s`). -/
inductive CVal : Type where
  | VInt : Int → CVal
  | VStr : List Char → CVal
deriving DecidableEq

/-- Decimal digit character, `0 ≤ n ≤ 9` intended. -/
def digitChar (n : Nat) : Char := Char.ofNat (48 + n)

/-- Decimal digits of a natural number, accumulator style; `fuel` bounds
the recursion and is always sufficient at the call site. -/
def natDigitsAux : Nat → Nat → List Char → List Char
  | 0, _, acc => acc
  | fuel + 1, n, acc =>
    if n < 10 then digitChar n :: acc
    else natDigitsAux fuel (n / 10) (digitChar (n % 10) :: acc)

/-- Decimal digits of a natural number, most significant first. -/
def natDigits (n : Nat) : List Char := natDigitsAux (n + 1) n []

/-- The text produced by the `%d` conversion for an integer argument:
decimal digits, with a leading minus sign for negative values. -/
def intToChars (i : Int) : List Char :=
  if i < 0 then '-' :: natDigits i.natAbs else natDigits i.natAbs

/-- The standard (unbounded) printf rendering of a format string against an
argument pack, for the conversions `%d`, `%s`, `%%` and literal characters.
`none` models the undefined behavior of a specifier/argument mismatch (or a
conversion outside the modelled subset); trailing excess arguments are
ignored, as the C standard specifies. -/
def render : List Char → List CVal → Option (List Char)
  | [], _ => some []
  | c :: rest, args =>
    if c = '%' then
      match rest, args with
      | 'd' :: rest2, CVal.VInt i :: args2 =>
          (render rest2 args2).map (fun t => intToChars i ++ t)
      | 's' :: rest2, CVal.VStr s :: args2 =>
          (render rest2 args2).map (fun t => s ++ t)
      | '%' :: rest2, args2 =>
          (render rest2 args2).map (fun t => '%' :: t)
      | _, _ => none
    else
      (render rest args).map (fun t => c :: t)

/-- Effect of `vsnprintf(buffer, 2048, ...)` on the buffer: the truncated
visible text `s` (at most 2047 characters) is written at positions
`0 .. s.length - 1`, the terminator at position `s.length`, and every byte
beyond keeps its previous (junk) value — no write touches any position
outside the 2048-byte buffer, which the result type `Buffer` enforces. -/
def writeBuf (b : Buffer) (s : List Char) : Buffer :=
  fun i =>
    if h : (i : Nat) < s.length then s.get ⟨i, h⟩
    else if (i : Nat) = s.length then nul
    else b i

/-- Reading the C string stored in the buffer starting at position `i`:
characters up to (excluding) the first terminator. `fuel` bounds the scan
to the buffer capacity. -/
def readAux (b : Buffer) : Nat → Nat → List Char
  | 0, _ => []
  | fuel + 1, i =>
    if h : i < 2048 then
      if b ⟨i, h⟩ = nul then [] else b ⟨i, h⟩ :: readAux b fuel (i + 1)
    else []

/-- The C string contents of the buffer: what `swiftLogHandler` observes
through the `const char*` it is handed. -/
def readCStr (b : Buffer) : List Char := readAux b 2048 0

/-- Observable events of one `logMessageCallback` call, in execution
order. -/
inductive Event : Type where
  | rendered : List Char → Event
  | handlerInvoked : List Char → Event
  | returned : Event
deriving DecidableEq

/-- Recognizes a handler-invocation event. -/
def Event.isHandlerCall : Event → Bool
  | Event.handlerInvoked _ => true
  | _ => false

/-- Result of one `logMessageCallback` call: the outside-world state after
the call and the trace of events in execution order.  There is no return
value and no error component, mirroring the C `void` return. -/
structure CallOutcome (σ : Type) where
  state : σ
  trace : List Event
deriving DecidableEq

/-- Embedding of `logMessageCallback`: render `(format, args)` into the
2048-byte buffer with `vsnprintf` truncation semantics, then invoke the
injected `swiftLogHandler` once with the buffer's C-string contents.
`b0` is the arbitrary initial contents of the freshly stack-allocated
buffer; `none` models the undefined behavior of out-of-contract input. -/
def logMessageCallback {σ : Type} (handler : List Char → σ → σ) (b0 : Buffer)
    (fmt : List Char) (args : List CVal) (s : σ) : Option (CallOutcome σ) :=
  match render fmt args with
  | none => none
  | some r =>
    let buf := writeBuf b0 (r.take 2047)
    let text := readCStr buf
    some ⟨handler text s, [Event.rendered text, Event.handlerInvoked text, Event.returned]⟩

/-- Link-time function symbols of the module. -/
inductive FuncSym : Type where
  | logMessageCallbackSym
  | swiftLogHandlerSym
deriving DecidableEq

/-- A loaded process image: the address the linker/loader assigned to each
function symbol.  Addresses are fixed for the lifetime of the process. -/
structure ProcessImage where
  addrOf : FuncSym → Nat

/-- Embedding of `getLogMessageCallbackPointer`: returns the address of
`logMessageCallback` in the process image as an opaque pointer value.  It
is threaded through the outside-world state `s` to record that it neither
reads nor changes any state and emits no events (third component). -/
def getLogMessageCallbackPointer {σ : Type} (img : ProcessImage) (s : σ) :
    Nat × σ × List Event :=
  (img.addrOf FuncSym.logMessageCallbackSym, s, [])

/-- A `%s` argument is a C string, hence free of interior terminators;
`%d` arguments carry no text. -/
def CVal.noNul : CVal → Bool
  | CVal.VInt _ => true
  | CVal.VStr s => s.all (fun c => decide (c ≠ nul))

/-- All string arguments in the pack are terminator-free C strings. -/
def noNulArgs (args : List CVal) : Bool := args.all CVal.noNul

/-! ### Helper lemmas -/

theorem digitChar_ne_nul : ∀ n < 10, digitChar n ≠ nul := by decide

theorem natDigitsAux_noNul : ∀ fuel n acc, nul ∉ acc → nul ∉ natDigitsAux fuel n acc := by
  intro fuel
  induction fuel with
  | zero => intro n acc h; simpa [natDigitsAux] using h
  | succ fuel ih =>
    intro n acc h
    rw [natDigitsAux]
    by_cases hn : n < 10
    · rw [if_pos hn]
      intro hmem
      rcases List.mem_cons.mp hmem with h1 | h2
      · exact digitChar_ne_nul n hn h1.symm
      · exact h h2
    · rw [if_neg hn]
      apply ih
      intro hmem
      rcases List.mem_cons.mp hmem with h1 | h2
      · exact digitChar_ne_nul (n % 10) (Nat.mod_lt _ (by norm_num)) h1.symm
      · exact h h2

theorem intToChars_noNul (i : Int) : nul ∉ intToChars i := by
  unfold intToChars natDigits
  by_cases hi : i < 0
  · rw [if_pos hi]
    intro hmem
    rcases List.mem_cons.mp hmem with h1 | h2
    · exact absurd h1.symm (by decide)
    · exact natDigitsAux_noNul _ _ [] (List.not_mem_nil nul) h2
  · rw [if_neg hi]
    exact natDigitsAux_noNul _ _ [] (List.not_mem_nil nul)

theorem render_noNul (fmt : List Char) (args : List CVal) :
    ∀ r, nul ∉ fmt → noNulArgs args = true → render fmt args = some r → nul ∉ r := by
  induction fmt, args using render.induct with
  | case1 args =>
    intro r _ _ hr
    simp only [render, Option.some.injEq] at hr
    subst hr
    exact List.not_mem_nil nul
  | case2 rest2 i args2 ih =>
    intro r hfmt hargs hr
    simp only [render] at hr
    rcases Option.map_eq_some'.mp hr with ⟨t, ht, rfl⟩
    have hargs2 : noNulArgs args2 = true := by
      simpa [noNulArgs, List.all_cons, CVal.noNul] using hargs
    intro hmem
    rcases List.mem_append.mp hmem with h1 | h2
    · exact intToChars_noNul i h1
    · exact ih t (fun hm => hfmt (by simp [hm])) hargs2 ht h2
  | case3 rest2 s args2 ih =>
    intro r hfmt hargs hr
    simp only [render] at hr
    rcases Option.map_eq_some'.mp hr with ⟨t, ht, rfl⟩
    have hsn : (s.all fun c => decide (c ≠ nul)) = true ∧ noNulArgs args2 = true := by
      simpa [noNulArgs, List.all_cons, CVal.noNul] using hargs
    intro hmem
    rcases List.mem_append.mp hmem with h1 | h2
    · have := List.all_eq_true.mp hsn.1 nul h1
      simp at this
    · exact ih t (fun hm => hfmt (by simp [hm])) hsn.2 ht h2
  | case4 rest2 args2 ih =>
    intro r hfmt hargs hr
    simp only [render] at hr
    rcases Option.map_eq_some'.mp hr with ⟨t, ht, rfl⟩
    intro hmem
    rcases List.mem_cons.mp hmem with h1 | h2
    · exact absurd h1 (by decide)
    · exact ih t (fun hm => hfmt (by simp [hm])) hargs ht h2
  | case5 rest args h1 h2 h3 =>
    intro r _ _ hr
    exfalso
    simp only [render] at hr
    split at hr
    · exact Option.noConfusion hr
    · rename_i hnt
      exact hnt trivial
  | case6 c rest args hc ih =>
    intro r hfmt hargs hr
    rw [render.eq_def] at hr
    dsimp only at hr
    rw [if_neg hc] at hr
    rcases Option.map_eq_some'.mp hr with ⟨t, ht, rfl⟩
    intro hmem
    rcases List.mem_cons.mp hmem with h1 | h2
    · exact hfmt (by simp [h1])
    · exact ih t (fun hm => hfmt (by simp [hm])) hargs ht h2

theorem readAux_writeBuf (b : Buffer) (s : List Char) (hs : s.length ≤ 2047) :
    ∀ fuel i, fuel + i = 2048 → i ≤ s.length →
      readAux (writeBuf b s) fuel i = (s.drop i).takeWhile (fun c => decide (c ≠ nul)) := by
  intro fuel
  induction fuel with
  | zero => intro i hfi hi; omega
  | succ fuel ih =>
    intro i hfi hi
    have hi2048 : i < 2048 := by omega
    rw [readAux, dif_pos hi2048]
    rcases Nat.lt_or_ge i s.length with hlt | hge
    · have hbuf : writeBuf b s ⟨i, hi2048⟩ = s.get ⟨i, hlt⟩ := by
        simp only [writeBuf, dif_pos hlt]
      rw [hbuf, List.drop_eq_getElem_cons hlt, List.takeWhile_cons, List.get_eq_getElem]
      by_cases hn : s[i] = nul
      · rw [if_pos hn, hn]
        simp
      · rw [if_neg hn, ih (i + 1) (by omega) hlt]
        simp [hn]
    · have hieq : i = s.length := by omega
      have hbuf : writeBuf b s ⟨i, hi2048⟩ = nul := by
        simp only [writeBuf, hieq]
        simp
      rw [hbuf, if_pos rfl, hieq, List.drop_length, List.takeWhile_nil]

theorem readCStr_writeBuf (b : Buffer) (s : List Char) (hs : s.length ≤ 2047) :
    readCStr (writeBuf b s) = s.takeWhile (fun c => decide (c ≠ nul)) := by
  simpa [readCStr] using readAux_writeBuf b s hs 2048 0 rfl (Nat.zero_le _)

theorem takeWhile_of_noNul (s : List Char) (h : nul ∉ s) :
    s.takeWhile (fun c => decide (c ≠ nul)) = s :=
  List.takeWhile_eq_self_iff.mpr fun c hc => by
    simp only [decide_eq_true_eq]
    exact fun hcn => h (hcn ▸ hc)

/-- One shared unfolding of `logMessageCallback` on in-contract input: the
handler receives the C string read back from the written buffer, namely the
truncated rendering cut at the first terminator, independently of the
initial buffer contents `b0`. -/
theorem logMessageCallback_eq {σ : Type} (handler : List Char → σ → σ) (b0 : Buffer)
    (fmt : List Char) (args : List CVal) (s : σ) (r : List Char)
    (hr : render fmt args = some r) :
    logMessageCallback handler b0 fmt args s =
      some ⟨handler ((r.take 2047).takeWhile (fun c => decide (c ≠ nul))) s,
        [Event.rendered ((r.take 2047).takeWhile (fun c => decide (c ≠ nul))),
         Event.handlerInvoked ((r.take 2047).takeWhile (fun c => decide (c ≠ nul))),
         Event.returned]⟩ := by
  unfold logMessageCallback
  rw [hr]
  have hlen : (r.take 2047).length ≤ 2047 := by
    simp only [List.length_take]
    omega
  simp only [readCStr_writeBuf b0 _ hlen]

/-- On terminator-free in-contract input, the text cut at the first
terminator is the truncated rendering itself. -/
theorem truncated_noNul (fmt : List Char) (args : List CVal) (r : List Char)
    (hfmt : nul ∉ fmt) (hargs : noNulArgs args = true)
    (hr : render fmt args = some r) :
    (r.take 2047).takeWhile (fun c => decide (c ≠ nul)) = r.take 2047 := by
  apply takeWhile_of_noNul
  intro hm
  exact render_noNul fmt args r hfmt hargs hr (List.take_subset 2047 r hm)

theorem takeWhile_stop (p : Char → Bool) :
    ∀ (s : List Char) (j : Nat) (hj : j < s.length),
      (s.takeWhile p).length = j → p (s.get ⟨j, hj⟩) = false := by
  intro s
  induction s with
  | nil => intro j hj; simp at hj
  | cons c tl ih =>
    intro j hj hlen
    rw [List.takeWhile_cons] at hlen
    by_cases hpc : p c
    · rw [if_pos hpc] at hlen
      cases j with
      | zero => simp at hlen
      | succ j2 =>
        simp only [List.length_cons, Nat.succ.injEq] at hlen
        simp only [List.get_eq_getElem, List.getElem_cons_succ]
        have hj2 : j2 < tl.length := by simpa using hj
        have := ih j2 hj2 hlen
        simpa using this
    · rw [if_neg hpc] at hlen
      simp only [List.length_nil] at hlen
      subst hlen
      simp only [List.get_eq_getElem, List.getElem_cons_zero]
      simp only [Bool.not_eq_true] at hpc
      exact hpc

/-- Terminator placement: after `vsnprintf` writes `s` (at most 2047
characters) into the buffer, the byte at the index where the C-string scan
stops is the terminator, and that index is inside the buffer. -/
theorem terminator_written (b : Buffer) (s : List Char) (hs : s.length ≤ 2047) :
    ∃ hlt : (s.takeWhile fun c => decide (c ≠ nul)).length < 2048,
      writeBuf b s ⟨(s.takeWhile fun c => decide (c ≠ nul)).length, hlt⟩ = nul := by
  have hle : (s.takeWhile fun c => decide (c ≠ nul)).length ≤ s.length :=
    List.Sublist.length_le (List.takeWhile_sublist _)
  refine ⟨by omega, ?_⟩
  rcases Nat.lt_or_ge (s.takeWhile fun c => decide (c ≠ nul)).length s.length with hlt2 | hge
  · have hstop := takeWhile_stop (fun c => decide (c ≠ nul)) s _ hlt2 rfl
    simp only [decide_eq_false_iff_not, not_not] at hstop
    simp only [writeBuf, dif_pos hlt2]
    exact hstop
  · have heq : (s.takeWhile fun c => decide (c ≠ nul)).length = s.length := by omega
    simp only [writeBuf, heq]
    simp

/-! ### Claim theorems -/

/-- C1: for every call to `logMessageCallback` with a format string whose
conversion specifiers match the argument types (`render` is defined) and
whose full standard rendering is shorter than 2048 bytes, the text passed
to `swiftLogHandler` equals exactly the standard printf-style rendering of
`(format, args)`. -/
theorem logMessageCallback_exact_rendering {σ : Type} (handler : List Char → σ → σ)
    (b0 : Buffer) (fmt : List Char) (args : List CVal) (s : σ) (r : List Char)
    (hr : render fmt args = some r) (hlen : r.length < 2048)
    (hfmt : nul ∉ fmt) (hargs : noNulArgs args = true) :
    logMessageCallback handler b0 fmt args s =
      some ⟨handler r s,
        [Event.rendered r, Event.handlerInvoked r, Event.returned]⟩ := by
  have htake : r.take 2047 = r := List.take_of_length_le (by omega)
  have h := logMessageCallback_eq handler b0 fmt args s r hr
  rw [truncated_noNul fmt args r hfmt hargs hr, htake] at h
  exact h

/-- Witness for C1: `"value=%d"` with argument 42 delivers `"value=42"`,
and the specifier-free literal `"ready"` is passed through unchanged. -/
theorem logMessageCallback_exact_rendering_witness :
    (logMessageCallback (fun t l => l ++ [t]) (fun _ => 'z') ("value=%d").data
        [CVal.VInt 42] ([] : List (List Char)) =
      some ⟨[("value=42").data],
        [Event.rendered ("value=42").data, Event.handlerInvoked ("value=42").data,
         Event.returned]⟩) ∧
    (logMessageCallback (fun t l => l ++ [t]) (fun _ => 'z') ("ready").data
        [] ([] : List (List Char)) =
      some ⟨[("ready").data],
        [Event.rendered ("ready").data, Event.handlerInvoked ("ready").data,
         Event.returned]⟩) :=
  ⟨logMessageCallback_exact_rendering _ _ _ _ _ _ (by decide) (by decide)
      (by decide) (by decide),
   logMessageCallback_exact_rendering _ _ _ _ _ _ (by decide) (by decide)
      (by decide) (by decide)⟩

/-- C2: when the full rendering is 2048 bytes or longer, the text passed to
`swiftLogHandler` is exactly the first 2047 bytes of that rendering, and the
call still completes normally (`some` outcome): the truncation raises no
error and is not otherwise signalled. -/
theorem logMessageCallback_truncates {σ : Type} (handler : List Char → σ → σ)
    (b0 : Buffer) (fmt : List Char) (args : List CVal) (s : σ) (r : List Char)
    (hr : render fmt args = some r) (_hlen : 2048 ≤ r.length)
    (hfmt : nul ∉ fmt) (hargs : noNulArgs args = true) :
    logMessageCallback handler b0 fmt args s =
      some ⟨handler (r.take 2047) s,
        [Event.rendered (r.take 2047), Event.handlerInvoked (r.take 2047),
         Event.returned]⟩ := by
  have h := logMessageCallback_eq handler b0 fmt args s r hr
  rw [truncated_noNul fmt args r hfmt hargs hr] at h
  exact h

/-- Rendering of a single `%s` conversion. -/
theorem render_s (s : List Char) :
    render ('%' :: 's' :: []) [CVal.VStr s] = some (s ++ []) := by
  simp [render]

/-- A pack holding one terminator-free replicated string is terminator-free. -/
theorem noNulArgs_replicate (n : Nat) :
    noNulArgs [CVal.VStr (List.replicate n 'x')] = true := by
  simp only [noNulArgs, CVal.noNul, List.all_cons, List.all_nil, Bool.and_true]
  rw [List.all_eq_true]
  intro c hc
  rw [List.eq_of_mem_replicate hc]
  decide

/-- Witness for C2: `"%s"` with a 3000-character argument delivers exactly
the first 2047 characters. -/
theorem logMessageCallback_truncates_witness :
    logMessageCallback (fun t l => l ++ [t]) (fun _ => 'z') ("%s").data
        [CVal.VStr (List.replicate 3000 'x')] ([] : List (List Char)) =
      some ⟨[List.replicate 2047 'x'],
        [Event.rendered (List.replicate 2047 'x'),
         Event.handlerInvoked (List.replicate 2047 'x'), Event.returned]⟩ := by
  have hr : render ("%s").data [CVal.VStr (List.replicate 3000 'x')] =
      some (List.replicate 3000 'x' ++ []) := render_s (List.replicate 3000 'x')
  have hlen : 2048 ≤ (List.replicate 3000 'x' ++ []).length := by
    rw [List.append_nil, List.length_replicate]
    norm_num
  have h := logMessageCallback_truncates (fun t l => l ++ [t]) (fun _ => 'z')
      ("%s").data [CVal.VStr (List.replicate 3000 'x')] [] (List.replicate 3000 'x' ++ [])
      hr hlen (by decide) (noNulArgs_replicate 3000)
  have htake : (List.replicate 3000 'x' ++ []).take 2047 = List.replicate 2047 'x' := by
    rw [List.append_nil, List.take_replicate,
      Nat.min_eq_left (by norm_num : (2047 : Nat) ≤ 3000)]
  rw [htake] at h
  exact h

/-- C3: on every in-contract call, `swiftLogHandler` is invoked exactly
once: the trace of the call contains exactly one handler-invocation
event — never zero, never more than one. -/
theorem logMessageCallback_handler_once {σ : Type} (handler : List Char → σ → σ)
    (b0 : Buffer) (fmt : List Char) (args : List CVal) (s : σ) (r : List Char)
    (hr : render fmt args = some r) :
    ∃ out, logMessageCallback handler b0 fmt args s = some out ∧
      (out.trace.filter Event.isHandlerCall).length = 1 := by
  refine ⟨_, logMessageCallback_eq handler b0 fmt args s r hr, ?_⟩
  simp [Event.isHandlerCall, List.filter]

/-- Witness for C3 at `"ready"` with no arguments. -/
theorem logMessageCallback_handler_once_witness :
    ∃ out, logMessageCallback (fun t l => l ++ [t]) (fun _ => 'z') ("ready").data
        [] ([] : List (List Char)) = some out ∧
      (out.trace.filter Event.isHandlerCall).length = 1 :=
  logMessageCallback_handler_once _ _ _ _ _ ("ready").data (by decide)

/-- C4: `getLogMessageCallbackPointer` returns the address of
`logMessageCallback` in the process image as an opaque pointer; given that
the loader placed the function at a nonzero address, the returned value is
non-null, and any two calls within the same process image return the same
value. -/
theorem getLogMessageCallbackPointer_stable {σ : Type} (img : ProcessImage) (s1 s2 : σ)
    (hpos : 0 < img.addrOf FuncSym.logMessageCallbackSym) :
    (getLogMessageCallbackPointer img s1).1 = img.addrOf FuncSym.logMessageCallbackSym ∧
    (getLogMessageCallbackPointer img s1).1 ≠ 0 ∧
    (getLogMessageCallbackPointer img s1).1 = (getLogMessageCallbackPointer img s2).1 :=
  ⟨rfl, Nat.pos_iff_ne_zero.mp hpos, rfl⟩

/-- Witness for C4 at a process image placing every symbol at 4096. -/
theorem getLogMessageCallbackPointer_stable_witness :
    (getLogMessageCallbackPointer ⟨fun _ => 4096⟩ (0 : Nat)).1 =
      ProcessImage.addrOf ⟨fun _ => 4096⟩ FuncSym.logMessageCallbackSym ∧
    (getLogMessageCallbackPointer ⟨fun _ => 4096⟩ (0 : Nat)).1 ≠ 0 ∧
    (getLogMessageCallbackPointer ⟨fun _ => 4096⟩ (0 : Nat)).1 =
      (getLogMessageCallbackPointer ⟨fun _ => 4096⟩ (1 : Nat)).1 :=
  getLogMessageCallbackPointer_stable ⟨fun _ => 4096⟩ 0 1 (by decide)

/-- C5: `logMessageCallback` returns no value and never produces an error
on any in-contract input: the call always completes normally (a `some`
outcome, whose type has no error component), including when the rendering
is truncated. -/
theorem logMessageCallback_no_error {σ : Type} (handler : List Char → σ → σ)
    (b0 : Buffer) (fmt : List Char) (args : List CVal) (s : σ)
    (hr : (render fmt args).isSome = true) :
    (logMessageCallback handler b0 fmt args s).isSome = true := by
  rcases Option.isSome_iff_exists.mp hr with ⟨r, hr2⟩
  rw [logMessageCallback_eq handler b0 fmt args s r hr2]
  rfl

/-- Witness for C5 at `"value=%d"` with argument 42. -/
theorem logMessageCallback_no_error_witness :
    (logMessageCallback (fun t l => l ++ [t]) (fun _ => 'z') ("value=%d").data
        [CVal.VInt 42] ([] : List (List Char))).isSome = true :=
  logMessageCallback_no_error _ _ _ _ _ (by decide)

/-- C6: every in-contract call is strictly sequential: its event trace is
exactly rendering first, then the single handler invocation, then the
return, and the final state is the handler applied to the pre-call state
(the handler has run to completion before the call returns). -/
theorem logMessageCallback_sequential {σ : Type} (handler : List Char → σ → σ)
    (b0 : Buffer) (fmt : List Char) (args : List CVal) (s : σ) (r : List Char)
    (hr : render fmt args = some r) :
    ∃ text, logMessageCallback handler b0 fmt args s =
      some ⟨handler text s,
        [Event.rendered text, Event.handlerInvoked text, Event.returned]⟩ :=
  ⟨_, logMessageCallback_eq handler b0 fmt args s r hr⟩

/-- Witness for C6 at `"value=%d"` with argument 42. -/
theorem logMessageCallback_sequential_witness :
    ∃ text, logMessageCallback (fun t l => l ++ [t]) (fun _ => 'z') ("value=%d").data
        [CVal.VInt 42] ([] : List (List Char)) =
      some ⟨(fun t l => l ++ [t]) text [],
        [Event.rendered text, Event.handlerInvoked text, Event.returned]⟩ :=
  logMessageCallback_sequential _ _ _ _ _ ("value=42").data (by decide)

/-- C7: both operations are stateless and side-effect-free with respect to
the bridge's own data: the module owns no state, the whole effect of
`logMessageCallback` is the single handler invocation producing the final
state, and `getLogMessageCallbackPointer` leaves the state unchanged and
emits no events — in particular it never invokes the handler. -/
theorem bridge_stateless {σ : Type} (handler : List Char → σ → σ) (b0 : Buffer)
    (fmt : List Char) (args : List CVal) (s : σ) (r : List Char) (img : ProcessImage)
    (hr : render fmt args = some r) :
    (∃ text, logMessageCallback handler b0 fmt args s =
      some ⟨handler text s,
        [Event.rendered text, Event.handlerInvoked text, Event.returned]⟩) ∧
    (getLogMessageCallbackPointer img s).2.1 = s ∧
    (getLogMessageCallbackPointer img s).2.2 = [] :=
  ⟨⟨_, logMessageCallback_eq handler b0 fmt args s r hr⟩, rfl, rfl⟩

/-- Witness for C7 at `"ready"` and a concrete process image. -/
theorem bridge_stateless_witness :
    (∃ text, logMessageCallback (fun t l => l ++ [t]) (fun _ => 'z') ("ready").data
        [] ([] : List (List Char)) =
      some ⟨(fun t l => l ++ [t]) text [],
        [Event.rendered text, Event.handlerInvoked text, Event.returned]⟩) ∧
    (getLogMessageCallbackPointer ⟨fun _ => 4096⟩ ([] : List (List Char))).2.1 = [] ∧
    (getLogMessageCallbackPointer ⟨fun _ => 4096⟩ ([] : List (List Char))).2.2 = [] :=
  bridge_stateless _ _ _ _ _ ("ready").data _ (by decide)

/-- C8: the 2048-byte scratch buffer is private to each call: the outcome
of `logMessageCallback` is identical for any two initial buffer contents,
so the junk a fresh stack allocation happens to contain — including
anything a previous call left behind — is never observable, and nothing of
the buffer beyond the delivered text value reaches the outcome. -/
theorem buffer_private_per_call {σ : Type} (handler : List Char → σ → σ)
    (b0 b1 : Buffer) (fmt : List Char) (args : List CVal) (s : σ) :
    logMessageCallback handler b0 fmt args s = logMessageCallback handler b1 fmt args s := by
  cases hr : render fmt args with
  | none => simp [logMessageCallback, hr]
  | some r =>
    rw [logMessageCallback_eq handler b0 fmt args s r hr,
      logMessageCallback_eq handler b1 fmt args s r hr]

/-- C9: `logMessageCallback` is deterministic: two calls with identical
format string and argument values deliver identical text to the handler
(identical traces), whatever the handler, the pre-call state, and the
initial buffer junk of each call. -/
theorem logMessageCallback_deterministic {σ1 σ2 : Type}
    (h1 : List Char → σ1 → σ1) (h2 : List Char → σ2 → σ2)
    (b01 b02 : Buffer) (s1 : σ1) (s2 : σ2) (fmt : List Char) (args : List CVal)
    (o1 : CallOutcome σ1) (o2 : CallOutcome σ2)
    (e1 : logMessageCallback h1 b01 fmt args s1 = some o1)
    (e2 : logMessageCallback h2 b02 fmt args s2 = some o2) :
    o1.trace = o2.trace := by
  cases hr : render fmt args with
  | none =>
    rw [logMessageCallback] at e1
    rw [hr] at e1
    exact Option.noConfusion e1
  | some r =>
    rw [logMessageCallback_eq h1 b01 fmt args s1 r hr] at e1
    rw [logMessageCallback_eq h2 b02 fmt args s2 r hr] at e2
    rw [← Option.some.inj e1, ← Option.some.inj e2]

/-- Witness for C9: two runs of `"ready"` with different handlers, states
and buffer junk deliver the same trace. -/
theorem logMessageCallback_deterministic_witness :
    (⟨[("ready").data],
      [Event.rendered ("ready").data, Event.handlerInvoked ("ready").data,
       Event.returned]⟩ : CallOutcome (List (List Char))).trace =
    (⟨(6 : Nat),
      [Event.rendered ("ready").data, Event.handlerInvoked ("ready").data,
       Event.returned]⟩ : CallOutcome Nat).trace :=
  logMessageCallback_deterministic (fun t l => l ++ [t]) (fun _ n => n + 1)
    (fun _ => 'a') (fun _ => 'b') [] 5 ("ready").data [] _ _ (by decide) (by decide)

/-- C10: on every in-contract input, truncated or not, the handler receives
a properly terminated string of at most 2047 characters: the delivered text
is terminator-free, its length is at most 2047, the buffer byte right after
it is the written terminator, and every write lands inside the 2048-byte
buffer (the index type `Fin 2048` of `Buffer`, which `writeBuf` returns,
admits no position beyond capacity). -/
theorem logMessageCallback_memory_safe {σ : Type} (handler : List Char → σ → σ)
    (b0 : Buffer) (fmt : List Char) (args : List CVal) (s : σ) (r : List Char)
    (hr : render fmt args = some r) :
    ∃ text, logMessageCallback handler b0 fmt args s =
        some ⟨handler text s,
          [Event.rendered text, Event.handlerInvoked text, Event.returned]⟩ ∧
      text.length ≤ 2047 ∧ nul ∉ text ∧
      ∃ hlt : text.length < 2048, writeBuf b0 (r.take 2047) ⟨text.length, hlt⟩ = nul := by
  have hs : (r.take 2047).length ≤ 2047 := by
    simp only [List.length_take]
    omega
  refine ⟨(r.take 2047).takeWhile (fun c => decide (c ≠ nul)),
    logMessageCallback_eq handler b0 fmt args s r hr, ?_, ?_, ?_⟩
  · have hle : ((r.take 2047).takeWhile (fun c => decide (c ≠ nul))).length ≤
        (r.take 2047).length :=
      List.Sublist.length_le (List.takeWhile_sublist _)
    omega
  · intro hm
    have := List.mem_takeWhile_imp hm
    simp at this
  · exact terminator_written b0 (r.take 2047) hs

/-- Witness for C10 at `"value=%d"` with argument 42. -/
theorem logMessageCallback_memory_safe_witness :
    ∃ text, logMessageCallback (fun t l => l ++ [t]) (fun _ => 'z') ("value=%d").data
        [CVal.VInt 42] ([] : List (List Char)) =
        some ⟨(fun t l => l ++ [t]) text [],
          [Event.rendered text, Event.handlerInvoked text, Event.returned]⟩ ∧
      text.length ≤ 2047 ∧ nul ∉ text ∧
      ∃ hlt : text.length < 2048,
        writeBuf (fun _ => 'z') ((("value=42").data).take 2047) ⟨text.length, hlt⟩ = nul :=
  logMessageCallback_memory_safe _ _ _ _ _ ("value=42").data (by decide)
